import Mathlib

/-!
Shallow embedding of `src/crew.py` (AgentSearchFlight).

The embedded fragment is the flight-search tool: the helpers `_to_iso`,
`_get_rate`, `_amadeus_token`, `_search_leg` and the method
`FlightSearchTool._run`.  External HTTP effects are modelled by a `World`
record holding, for each endpoint, the outcome the network would deliver;
the functions under test consume that outcome exactly the way the Python
code consumes `requests` responses.  Python floats are modelled as exact
rationals (`ℚ`); the binary-representation error of CPython floats is not
modelled.  JSON access paths that can raise (`KeyError` / `IndexError`) are
modelled with `Option`, and a raised exception aborts the invocation, as in
the source, where no handler exists.
-/

/-- `companies = {"LA": "LATAM", "G3": "GOL", "AD": "Azul", "2Z": "Voepass"}`
(crew.py line 9). -/
def companies : List (String × String) :=
  [("LA", "LATAM"), ("G3", "GOL"), ("AD", "Azul"), ("2Z", "Voepass")]

/-- Python `companies.get(code, code)` (crew.py line 91). -/
def companiesGet (code : String) : String :=
  (companies.lookup code).getD code

/-- Python `round` to an integer: round half to even (banker's rounding),
which is what CPython's `round` implements on exact values. -/
def roundHalfToEven (q : ℚ) : ℤ :=
  if q - ⌊q⌋ < 1 / 2 then ⌊q⌋
  else if 1 / 2 < q - ⌊q⌋ then ⌊q⌋ + 1
  else if ⌊q⌋ % 2 = 0 then ⌊q⌋ else ⌊q⌋ + 1

/-- Python `round(x, 2)` (crew.py line 96) on exact rationals: round to the
nearest multiple of 1/100, ties to even. -/
def round2 (q : ℚ) : ℚ :=
  (roundHalfToEven (q * 100) : ℚ) / 100

/-! ### Dates: `_to_iso` (crew.py lines 11-13)

`datetime.strptime(date_br, "%d/%m/%Y")` matches the directive `%d` with the
regex `3[01]|[12]\d|0[1-9]|[1-9]` (two digits valued 1..31, else one digit
1..9), `%m` with `1[0-2]|0[1-9]|[1-9]` (two digits valued 1..12, else one
digit 1..9) and `%Y` with exactly four digits; the whole string must be
consumed, and the numbers must form a real calendar date with year ≥ 1
(else `ValueError`).  `.strftime("%Y-%m-%d")` prints the zero-padded ISO
form. -/

/-- Numeric value of a decimal digit character. -/
def digitVal (c : Char) : Nat := c.toNat - 48

/-- Match a one- or two-digit field: two digits when their value is in
`1..hi`, otherwise a single digit `1..9` (the `%d` / `%m` regex). -/
def take2Or1 (hi : Nat) : List Char → Option (Nat × List Char)
  | c1 :: c2 :: rest =>
    if c1.isDigit ∧ c2.isDigit ∧ 1 ≤ 10 * digitVal c1 + digitVal c2 ∧
        10 * digitVal c1 + digitVal c2 ≤ hi then
      some (10 * digitVal c1 + digitVal c2, rest)
    else if c1.isDigit ∧ 1 ≤ digitVal c1 ∧ digitVal c1 ≤ 9 then
      some (digitVal c1, c2 :: rest)
    else none
  | [c1] =>
    if c1.isDigit ∧ 1 ≤ digitVal c1 ∧ digitVal c1 ≤ 9 then
      some (digitVal c1, [])
    else none
  | [] => none

/-- Match exactly four digits (the `%Y` regex). -/
def take4Digits : List Char → Option (Nat × List Char)
  | a :: b :: c :: d :: rest =>
    if a.isDigit ∧ b.isDigit ∧ c.isDigit ∧ d.isDigit then
      some (digitVal a * 1000 + digitVal b * 100 + digitVal c * 10 + digitVal d, rest)
    else none
  | _ => none

/-- Match the literal `/` between the strptime directives. -/
def expectSlash : List Char → Option (List Char)
  | '/' :: rest => some rest
  | _ => none

/-- Gregorian leap year, as `datetime` validates it. -/
def isLeapYear (y : Nat) : Bool :=
  y % 4 = 0 ∧ (y % 100 ≠ 0 ∨ y % 400 = 0)

/-- Number of days of month `m` in year `y` (`datetime` validation). -/
def daysInMonth (y m : Nat) : Nat :=
  if m = 2 then (if isLeapYear y then 29 else 28)
  else if m = 4 ∨ m = 6 ∨ m = 9 ∨ m = 11 then 30
  else 31

/-- Zero-pad to two digits (strftime `%m`, `%d`). -/
def pad2 (n : Nat) : String :=
  if n < 10 then "0" ++ toString n else toString n

/-- Zero-pad to four digits (strftime `%Y`). -/
def pad4 (n : Nat) : String :=
  if n < 10 then "000" ++ toString n
  else if n < 100 then "00" ++ toString n
  else if n < 1000 then "0" ++ toString n
  else toString n

/-- `_to_iso` (crew.py lines 11-13): convert `dd/MM/yyyy` to `yyyy-MM-dd`;
`none` models the `ValueError` raised by `strptime` on a malformed input. -/
def _to_iso (date_br : String) : Option String :=
  match take2Or1 31 date_br.data with
  | none => none
  | some (d, r1) =>
    match expectSlash r1 with
    | none => none
    | some r2 =>
      match take2Or1 12 r2 with
      | none => none
      | some (m, r3) =>
        match expectSlash r3 with
        | none => none
        | some r4 =>
          match take4Digits r4 with
          | none => none
          | some (y, r5) =>
            if r5 = [] ∧ 1 ≤ y ∧ d ≤ daysInMonth y m then
              some (pad4 y ++ "-" ++ pad2 m ++ "-" ++ pad2 d)
            else none

/-! ### Data model of the Amadeus offers consumed by `_run` -/

/-- The fields of `offer["itineraries"][i]["segments"][j]` that `_run`
reads (crew.py lines 88-94). -/
structure Segment where
  carrierCode : String
  departureAt : String
  arrivalAt : String
  numberOfStops : Int

/-- One entry of `offer["itineraries"]`. -/
structure Itinerary where
  segments : List Segment

/-- `offer["price"]`: currency code and `grandTotal` (the Python code parses
the JSON string with `float`; the parsed value is modelled as an exact
rational). -/
structure OfferPrice where
  currency : String
  grandTotal : ℚ

/-- One element of the provider's `data` list. -/
structure RawOffer where
  itineraries : List Itinerary
  price : OfferPrice
  numberOfBookableSeats : Int

/-- One element of the result arrays built at crew.py lines 89-98. -/
structure NormalizedOffer where
  company : String
  departure_time : String
  arrival_time : String
  stops : Int
  seats_remaining : Int
  price_brl : ℚ

/-- The value serialized at crew.py line 101: keys `outbound` and `return`
(`ret` here, `return` being reserved). -/
structure TripResult where
  outbound : List NormalizedOffer
  ret : List NormalizedOffer

/-! ### External effects -/

/-- An HTTP exchange as the code observes it: either the transport raises
(`requests` exception: timeout, connection failure), or a response arrives
with a status code and a body.  `β` is the value the code extracts from
`r.json()`; the body is `none` when that extraction raises (malformed JSON
or a missing key).  The Python code never inspects the status code. -/
inductive HttpResult (β : Type) where
  | transportError : HttpResult β
  | response (status : Nat) (body : Option β) : HttpResult β

/-- The outcomes the external services deliver during one invocation:
the token endpoint, the flight-offer endpoint (keyed by bearer token,
origin, destination, ISO date), and the exchange-rate endpoint (keyed by
base currency). -/
structure World where
  tokenResp : HttpResult String
  searchResp : String → String → String → String → HttpResult (List RawOffer)
  rateResp : String → HttpResult ℚ

/-- `_amadeus_token` (crew.py lines 29-39): POST then `r.json()["access_token"]`;
the status code is not checked. -/
def _amadeus_token (w : World) : Option String :=
  match w.tokenResp with
  | .transportError => none
  | .response _ body => body

/-- `_get_rate` (crew.py lines 15-27): GET then `r.json()["rates"]["BRL"]`;
the status code is not checked. -/
def _get_rate (w : World) (cur : String) : Option ℚ :=
  match w.rateResp cur with
  | .transportError => none
  | .response _ body => body

/-- `_search_leg` (crew.py lines 41-55): GET then `r.json()["data"]`;
the status code is not checked, and exactly one request is made. -/
def _search_leg (w : World) (token origin dest date : String) : Option (List RawOffer) :=
  match w.searchResp token origin dest date with
  | .transportError => none
  | .response _ body => body

/-! ### The `_run` pipeline (crew.py lines 68-101) -/

/-- Lookup in the `rates` dict.  The table is extended by prepending, so the
most recent binding wins, matching Python dict assignment (the code only
ever inserts a currency that is absent, so the direction is unobservable). -/
def lookupRate : List (String × ℚ) → String → Option ℚ
  | [], _ => none
  | (c, r) :: rest, k => if k = c then some r else lookupRate rest k

/-- `o["itineraries"][0]["segments"][0]` (crew.py line 88); `none` models the
`IndexError` path. -/
def firstSegment (o : RawOffer) : Option Segment :=
  match o.itineraries with
  | [] => none
  | it :: _ =>
    match it.segments with
    | [] => none
    | s :: _ => some s

/-- The dict appended at crew.py lines 89-97, given the resolved rate `r`
for the offer's currency. -/
def normalizeOffer (o : RawOffer) (seg : Segment) (r : ℚ) : NormalizedOffer where
  company := companiesGet seg.carrierCode
  departure_time := seg.departureAt
  arrival_time := seg.arrivalAt
  stops := seg.numberOfStops
  seats_remaining := o.numberOfBookableSeats
  price_brl := round2 (o.price.grandTotal * r)

/-- Lines 85-87: look the currency up in `rates`; when absent, call
`_get_rate` (recording the call in `rcalls`) and store the result.  `none`
in the third component models a `_get_rate` failure aborting the
iteration. -/
def resolveRate (w : World) (rates : List (String × ℚ)) (rcalls : List String)
    (cur : String) : List (String × ℚ) × List String × Option ℚ :=
  match lookupRate rates cur with
  | some r => (rates, rcalls, some r)
  | none =>
    match _get_rate w cur with
    | none => (rates, rcalls ++ [cur], none)
    | some r => ((cur, r) :: rates, rcalls ++ [cur], some r)

/-- The per-leg loop body of `_run` (crew.py lines 84-98): for each offer,
resolve its currency's rate, read the first segment of the first itinerary,
and append the normalized entry.  The third component is `none` when the
iteration raises (rate failure or missing itinerary/segment); the rate
table and the `_get_rate` call log are returned in every case. -/
def processOffers (w : World) :
    List (String × ℚ) → List String → List RawOffer →
    List (String × ℚ) × List String × Option (List NormalizedOffer)
  | rates, rcalls, [] => (rates, rcalls, some [])
  | rates, rcalls, o :: rest =>
    match resolveRate w rates rcalls o.price.currency with
    | (rates1, rcalls1, none) => (rates1, rcalls1, none)
    | (rates1, rcalls1, some r) =>
      match firstSegment o with
      | none => (rates1, rcalls1, none)
      | some seg =>
        match processOffers w rates1 rcalls1 rest with
        | (rs, cs, none) => (rs, cs, none)
        | (rs, cs, some ns) => (rs, cs, some (normalizeOffer o seg r :: ns))

/-- The comparison used by `result[leg_name].sort(key=lambda v: v["price_brl"])`. -/
def priceLE (a b : NormalizedOffer) : Bool :=
  decide (a.price_brl ≤ b.price_brl)

/-- Line 99: Python's `list.sort` is a stable ascending sort by the key;
`List.mergeSort` is extensionally the same function. -/
def sortLeg (ns : List NormalizedOffer) : List NormalizedOffer :=
  ns.mergeSort priceLE

/-- `FlightSearchTool._run` (crew.py lines 68-101), instrumented.  Returns
the produced `TripResult` (`none` when the invocation raises), the list of
`_search_leg` calls as (origin, destination, ISO date) triples, and the
list of `_get_rate` calls by base currency, both in call order.  The final
`json.dumps` serialization is not modelled. -/
def runT (w : World) (origin destination departure_date return_date : String) :
    Option TripResult × List (String × String × String) × List String :=
  match _amadeus_token w with
  | none => (none, [], [])
  | some token =>
    match _to_iso departure_date with
    | none => (none, [], [])
    | some d1 =>
      match _search_leg w token origin destination d1 with
      | none => (none, [(origin, destination, d1)], [])
      | some outb =>
        match _to_iso return_date with
        | none => (none, [(origin, destination, d1)], [])
        | some d2 =>
          match _search_leg w token destination origin d2 with
          | none => (none, [(origin, destination, d1), (destination, origin, d2)], [])
          | some retn =>
            match processOffers w [] [] outb with
            | (_, rcalls1, none) =>
              (none, [(origin, destination, d1), (destination, origin, d2)], rcalls1)
            | (rates1, rcalls1, some ns1) =>
              match processOffers w rates1 rcalls1 retn with
              | (_, rcalls2, none) =>
                (none, [(origin, destination, d1), (destination, origin, d2)], rcalls2)
              | (_, rcalls2, some ns2) =>
                (some ⟨sortLeg ns1, sortLeg ns2⟩,
                 [(origin, destination, d1), (destination, origin, d2)], rcalls2)

/-! ### Concrete scenarios

Worlds used to instantiate the theorems below: the end-to-end scenario of
the spec (three outbound offers priced 200 USD, 150 EUR, 180 USD with
factors USD→BRL = 5.0 and EUR→BRL = 5.5), an authentication failure, a
negative provider price, a non-success HTTP status with a well-formed
body, and a provider delivering more than 20 offers. -/

/-- First scenario offer: 200 USD, carrier LA, one segment. -/
def offerUSD200 : RawOffer :=
  ⟨[⟨[⟨"LA", "2025-11-05T08:00", "2025-11-05T09:45", 0⟩]⟩], ⟨"USD", 200⟩, 5⟩

/-- Second scenario offer: 150 EUR, unknown carrier XX, one segment. -/
def offerEUR150 : RawOffer :=
  ⟨[⟨[⟨"XX", "2025-11-05T10:00", "2025-11-05T11:30", 0⟩]⟩], ⟨"EUR", 150⟩, 3⟩

/-- Third scenario offer: 180 USD, carrier AD, an itinerary of two segments
followed by a second itinerary (exercises the first-segment-only reads). -/
def offerUSD180 : RawOffer :=
  ⟨[⟨[⟨"AD", "2025-11-05T12:00", "2025-11-05T13:10", 0⟩,
      ⟨"AD", "2025-11-05T14:00", "2025-11-05T23:55", 1⟩]⟩,
    ⟨[⟨"G3", "2025-11-06T07:00", "2025-11-06T08:00", 2⟩]⟩],
   ⟨"USD", 180⟩, 9⟩

/-- Normalized form of `offerUSD200` under USD→BRL = 5. -/
def nLATAM1000 : NormalizedOffer :=
  ⟨"LATAM", "2025-11-05T08:00", "2025-11-05T09:45", 0, 5, 1000⟩

/-- Normalized form of `offerEUR150` under EUR→BRL = 5.5. -/
def nXX825 : NormalizedOffer :=
  ⟨"XX", "2025-11-05T10:00", "2025-11-05T11:30", 0, 3, 825⟩

/-- Normalized form of `offerUSD180` under USD→BRL = 5. -/
def nAzul900 : NormalizedOffer :=
  ⟨"Azul", "2025-11-05T12:00", "2025-11-05T13:10", 0, 9, 900⟩

/-- The end-to-end scenario world: authentication succeeds, the GRU-origin
leg returns the three scenario offers, the opposite leg returns no offers,
and the rate service quotes USD→BRL = 5 and EUR→BRL = 11/2. -/
def wC2 : World where
  tokenResp := .response 200 (some "tok")
  searchResp := fun _tok o _d _date =>
    if o = "GRU" then .response 200 (some [offerUSD200, offerEUR150, offerUSD180])
    else .response 200 (some [])
  rateResp := fun c =>
    if c = "USD" then .response 200 (some 5)
    else if c = "EUR" then .response 200 (some (11 / 2))
    else .transportError

/-- A world whose token endpoint is unreachable. -/
def wAuthFail : World where
  tokenResp := .transportError
  searchResp := fun _ _ _ _ => .response 200 (some [offerUSD200])
  rateResp := fun _ => .response 200 (some 5)

/-- Normalized form of `offerNegUSD` under USD→BRL = 5: a negative price. -/
def nNeg500 : NormalizedOffer :=
  ⟨"LATAM", "2025-11-05T08:00", "2025-11-05T09:45", 0, 5, -500⟩

/-- An offer whose `grandTotal` is −100 USD. -/
def offerNegUSD : RawOffer :=
  ⟨[⟨[⟨"LA", "2025-11-05T08:00", "2025-11-05T09:45", 0⟩]⟩], ⟨"USD", -100⟩, 5⟩

/-- A world whose provider quotes a negative total price (−100 USD). -/
def wNeg : World where
  tokenResp := .response 200 (some "tok")
  searchResp := fun _tok o _d _date =>
    if o = "GRU" then .response 200 (some [offerNegUSD])
    else .response 200 (some [])
  rateResp := fun c =>
    if c = "USD" then .response 200 (some 5) else .transportError

/-- A world whose offer endpoint is unreachable (transport failure). -/
def wSearchFail : World where
  tokenResp := .response 200 (some "tok")
  searchResp := fun _ _ _ _ => .transportError
  rateResp := fun _ => .response 200 (some 5)

/-- A world whose offer endpoint answers status 500 yet with a body whose
`data` entry parses fine (here: an empty offer list). -/
def w500 : World where
  tokenResp := .response 200 (some "tok")
  searchResp := fun _ _ _ _ => .response 500 (some [])
  rateResp := fun _ => .response 200 (some 5)

/-- A world whose provider delivers 21 offers on the GRU-origin leg. -/
def wBig : World where
  tokenResp := .response 200 (some "tok")
  searchResp := fun _tok o _d _date =>
    if o = "GRU" then .response 200 (some (List.replicate 21 offerUSD200))
    else .response 200 (some [])
  rateResp := fun c =>
    if c = "USD" then .response 200 (some 5) else .transportError

/-! ### Helper lemmas: the rate table -/

lemma lookupRate_nil (c : String) : lookupRate [] c = none := rfl

lemma lookupRate_cons (a : String) (b : ℚ) (rest : List (String × ℚ)) (k : String) :
    lookupRate ((a, b) :: rest) k = if k = a then some b else lookupRate rest k := rfl

lemma lookupRate_eq_none_iff (rates : List (String × ℚ)) (c : String) :
    lookupRate rates c = none ↔ c ∉ rates.map Prod.fst := by
  induction rates with
  | nil => simp [lookupRate]
  | cons p rest ih =>
    rcases p with ⟨a, b⟩
    by_cases hc : c = a <;> simp [lookupRate, hc, ih]

lemma lookupRate_cons_isSome (a : String × ℚ) {rates : List (String × ℚ)} {c : String}
    (h : ∃ r, lookupRate rates c = some r) :
    ∃ r, lookupRate (a :: rates) c = some r := by
  rcases a with ⟨x, y⟩
  by_cases hc : c = x
  · exact ⟨y, by simp [lookupRate, hc]⟩
  · rcases h with ⟨r, hr⟩
    exact ⟨r, by simp [lookupRate, hc, hr]⟩

lemma lookupRate_mem {rates : List (String × ℚ)} {c : String} {r : ℚ}
    (h : lookupRate rates c = some r) : (c, r) ∈ rates := by
  induction rates with
  | nil => simp [lookupRate] at h
  | cons p rest ih =>
    rcases p with ⟨a, b⟩
    by_cases hc : c = a
    · simp [lookupRate, hc] at h
      simp [hc, h]
    · simp [lookupRate, hc] at h
      exact List.mem_cons_of_mem _ (ih h)

/-! ### Helper lemmas: rounding -/

lemma roundHalfToEven_nonneg {q : ℚ} (hq : 0 ≤ q) : 0 ≤ roundHalfToEven q := by
  have hf : (0 : ℤ) ≤ ⌊q⌋ := Int.floor_nonneg.mpr hq
  unfold roundHalfToEven
  split_ifs <;> omega

lemma round2_nonneg {q : ℚ} (hq : 0 ≤ q) : 0 ≤ round2 q := by
  have h1 : (0 : ℤ) ≤ roundHalfToEven (q * 100) :=
    roundHalfToEven_nonneg (by positivity)
  unfold round2
  have h2 : (0 : ℚ) ≤ (roundHalfToEven (q * 100) : ℚ) := by exact_mod_cast h1
  positivity

lemma roundHalfToEven_intCast (n : ℤ) : roundHalfToEven (n : ℚ) = n := by
  unfold roundHalfToEven
  rw [Int.floor_intCast]
  simp

lemma round2_intCast (n : ℤ) : round2 (n : ℚ) = n := by
  unfold round2
  rw [show ((n : ℚ) * 100) = ((n * 100 : ℤ) : ℚ) by push_cast; ring,
    roundHalfToEven_intCast]
  push_cast
  ring

/-! ### Helper lemmas: `resolveRate` and `processOffers` -/

/-- The rate table only holds values the rate service returned: every
binding agrees with `_get_rate`. -/
def RatesOK (w : World) (rates : List (String × ℚ)) : Prop :=
  ∀ c r, lookupRate rates c = some r → _get_rate w c = some r

lemma RatesOK_nil (w : World) : RatesOK w [] := by
  intro c r h
  simp [lookupRate] at h

lemma RatesOK_cons {w : World} {cur : String} {r : ℚ} {rates : List (String × ℚ)}
    (hOK : RatesOK w rates) (hg : _get_rate w cur = some r) :
    RatesOK w ((cur, r) :: rates) := by
  intro c r' hl
  rw [lookupRate_cons] at hl
  by_cases hc : c = cur
  · simp [hc] at hl
    subst hc
    rw [hg, hl]
  · simp [hc] at hl
    exact hOK c r' hl

lemma resolveRate_none {w : World} {rates rates1 : List (String × ℚ)}
    {rcalls rcalls1 : List String} {cur : String}
    (h : resolveRate w rates rcalls cur = (rates1, rcalls1, none)) :
    lookupRate rates cur = none ∧ _get_rate w cur = none ∧
      rates1 = rates ∧ rcalls1 = rcalls ++ [cur] := by
  unfold resolveRate at h
  rcases hl : lookupRate rates cur with _ | r0
  · rw [hl] at h
    rcases hg : _get_rate w cur with _ | r1
    · rw [hg] at h
      simp at h
      exact ⟨rfl, rfl, h.1.symm, h.2.symm⟩
    · rw [hg] at h
      simp at h
  · rw [hl] at h
    simp at h

lemma resolveRate_some {w : World} {rates rates1 : List (String × ℚ)}
    {rcalls rcalls1 : List String} {cur : String} {r : ℚ}
    (h : resolveRate w rates rcalls cur = (rates1, rcalls1, some r)) :
    (lookupRate rates cur = some r ∧ rates1 = rates ∧ rcalls1 = rcalls) ∨
    (lookupRate rates cur = none ∧ _get_rate w cur = some r ∧
      rates1 = (cur, r) :: rates ∧ rcalls1 = rcalls ++ [cur]) := by
  unfold resolveRate at h
  rcases hl : lookupRate rates cur with _ | r0
  · rw [hl] at h
    rcases hg : _get_rate w cur with _ | r1
    · rw [hg] at h
      simp at h
    · rw [hg] at h
      simp at h
      obtain ⟨h1, h2, h3⟩ := h
      subst h3
      exact Or.inr ⟨rfl, rfl, h1.symm, h2.symm⟩
  · rw [hl] at h
    simp at h
    obtain ⟨h1, h2, h3⟩ := h
    subst h3
    exact Or.inl ⟨rfl, h1.symm, h2.symm⟩

/-- With a table whose bindings agree with the rate service, a successful
`resolveRate` yields exactly the service's rate for that currency, and the
invariants are preserved. -/
lemma resolveRate_some_oracle {w : World} {rates rates1 : List (String × ℚ)}
    {rcalls rcalls1 : List String} {cur : String} {r : ℚ}
    (hOK : RatesOK w rates)
    (h : resolveRate w rates rcalls cur = (rates1, rcalls1, some r)) :
    _get_rate w cur = some r ∧ RatesOK w rates1 := by
  rcases resolveRate_some h with ⟨hl, h1, _⟩ | ⟨_, hg, h1, _⟩
  · subst h1
    exact ⟨hOK cur r hl, hOK⟩
  · subst h1
    exact ⟨hg, RatesOK_cons hOK hg⟩

/-- Invariants of the per-leg loop: the table keeps agreeing with the rate
service, the `_get_rate` call log stays duplicate-free, the table keys stay
duplicate-free, new calls only happen for currencies of the processed
offers, the table only grows, and (on success) every logged currency has a
binding. -/
lemma processOffers_invariants {w : World} {rates rs : List (String × ℚ)}
    {rcalls cs : List String} {offers : List RawOffer}
    {res : Option (List NormalizedOffer)}
    (h : processOffers w rates rcalls offers = (rs, cs, res))
    (hOK : RatesOK w rates)
    (hcall : ∀ c ∈ rcalls, ∃ r, lookupRate rates c = some r)
    (hnd : rcalls.Nodup)
    (hkeys : (rates.map Prod.fst).Nodup) :
    RatesOK w rs ∧ cs.Nodup ∧ (rs.map Prod.fst).Nodup ∧
    (∀ c ∈ cs, c ∈ rcalls ∨ c ∈ offers.map (fun o => o.price.currency)) ∧
    (∃ ext, rs = ext ++ rates) ∧
    (∀ ns, res = some ns → ∀ c ∈ cs, ∃ r, lookupRate rs c = some r) := by
  induction offers generalizing rates rcalls rs cs res with
  | nil =>
    simp [processOffers] at h
    obtain ⟨h1, h2, h3⟩ := h
    subst h1
    subst h2
    subst h3
    refine ⟨hOK, hnd, hkeys, fun c hc => Or.inl hc, ⟨[], rfl⟩, ?_⟩
    intro ns _ c hc
    exact hcall c hc
  | cons o rest ih =>
    rw [processOffers] at h
    rcases hr : resolveRate w rates rcalls o.price.currency with ⟨rates1, rcalls1, ro⟩
    rw [hr] at h
    -- facts about the single resolution step
    have step :
        RatesOK w rates1 ∧ rcalls1.Nodup ∧ (rates1.map Prod.fst).Nodup ∧
        (∀ c ∈ rcalls1, c = o.price.currency ∨ c ∈ rcalls) ∧
        (∃ ext, rates1 = ext ++ rates) ∧
        (ro.isSome = true → ∀ c ∈ rcalls1, ∃ r, lookupRate rates1 c = some r) := by
      rcases ro with _ | r
      · obtain ⟨hl, _, h1, h2⟩ := resolveRate_none hr
        subst h1
        subst h2
        have hno : o.price.currency ∉ rcalls := by
          intro hmem
          rcases hcall _ hmem with ⟨r, hr'⟩
          rw [hl] at hr'
          exact Option.noConfusion hr'
        refine ⟨hOK, ?_, hkeys, ?_, ⟨[], rfl⟩, by simp⟩
        · simpa [List.nodup_append] using ⟨hnd, hno⟩
        · intro c hc
          rcases List.mem_append.mp hc with hc | hc
          · exact Or.inr hc
          · simp at hc
            exact Or.inl hc
      · rcases resolveRate_some hr with ⟨hl, h1, h2⟩ | ⟨hl, hg, h1, h2⟩
        · subst h1
          subst h2
          exact ⟨hOK, hnd, hkeys, fun c hc => Or.inr hc, ⟨[], rfl⟩,
            fun _ c hc => hcall c hc⟩
        · subst h1
          subst h2
          have hno : o.price.currency ∉ rcalls := by
            intro hmem
            rcases hcall _ hmem with ⟨r', hr'⟩
            rw [hl] at hr'
            exact Option.noConfusion hr'
          have hnk : o.price.currency ∉ rates.map Prod.fst :=
            (lookupRate_eq_none_iff _ _).mp hl
          refine ⟨RatesOK_cons hOK hg, ?_, ?_, ?_, ⟨[(o.price.currency, r)], rfl⟩, ?_⟩
          · simpa [List.nodup_append] using ⟨hnd, hno⟩
          · simp only [List.map_cons, List.nodup_cons]
            exact ⟨hnk, hkeys⟩
          · intro c hc
            rcases List.mem_append.mp hc with hc | hc
            · exact Or.inr hc
            · simp at hc
              exact Or.inl hc
          · intro _ c hc
            rcases List.mem_append.mp hc with hc | hc
            · exact lookupRate_cons_isSome _ (hcall c hc)
            · simp at hc
              subst hc
              exact ⟨r, by simp [lookupRate_cons]⟩
    obtain ⟨sOK, snd, skeys, ssub, sext, slook⟩ := step
    rcases ro with _ | r
    · -- rate lookup failed: the iteration aborts here
      simp at h
      obtain ⟨h1, h2, h3⟩ := h
      subst h1
      subst h2
      refine ⟨sOK, snd, skeys, ?_, sext, ?_⟩
      · intro c hc
        rcases ssub c hc with hc' | hc'
        · exact Or.inr (by simp [hc'])
        · exact Or.inl hc'
      · intro ns hns
        rw [← h3] at hns
        exact Option.noConfusion hns
    · simp only [] at h
      rcases hs : firstSegment o with _ | seg
      · -- missing itinerary/segment: the iteration aborts here
        rw [hs] at h
        simp at h
        obtain ⟨h1, h2, h3⟩ := h
        subst h1
        subst h2
        refine ⟨sOK, snd, skeys, ?_, sext, ?_⟩
        · intro c hc
          rcases ssub c hc with hc' | hc'
          · exact Or.inr (by simp [hc'])
          · exact Or.inl hc'
        · intro ns hns
          rw [← h3] at hns
          exact Option.noConfusion hns
      · rw [hs] at h
        rcases hp : processOffers w rates1 rcalls1 rest with ⟨rs2, cs2, res2⟩
        rw [hp] at h
        have hcall1 : ∀ c ∈ rcalls1, ∃ r', lookupRate rates1 c = some r' :=
          slook (by simp)
        obtain ⟨rOK, rnd, rkeys, rsub, rext, rlook⟩ :=
          ih hp sOK hcall1 snd skeys
        have hmain :
            rs = rs2 ∧ cs = cs2 ∧
            (∀ ns, res = some ns → ∃ ns2, res2 = some ns2) := by
          rcases res2 with _ | ns2
          · simp at h
            exact ⟨h.1.symm, h.2.1.symm, fun ns hns => by
              rw [← h.2.2] at hns
              exact Option.noConfusion hns⟩
          · simp at h
            exact ⟨h.1.symm, h.2.1.symm, fun ns hns => ⟨ns2, rfl⟩⟩
        obtain ⟨hrs, hcs, hres⟩ := hmain
        subst hrs
        subst hcs
        refine ⟨rOK, rnd, rkeys, ?_, ?_, ?_⟩
        · intro c hc
          rcases rsub c hc with hc' | hc'
          · rcases ssub c hc' with hc'' | hc''
            · exact Or.inr (by simp [hc''])
            · exact Or.inl hc''
          · exact Or.inr (by simp; right; simpa using hc')
        · rcases rext with ⟨ext2, hext2⟩
          rcases sext with ⟨ext1, hext1⟩
          exact ⟨ext2 ++ ext1, by rw [hext2, hext1, List.append_assoc]⟩
        · intro ns hns c hc
          rcases hres ns hns with ⟨ns2, hns2⟩
          exact rlook ns2 hns2 c hc

/-- On success, the loop yields exactly one normalized offer per raw offer,
in provider order; each is built from the first segment of the offer's
first itinerary and the rate service's value for the offer's currency. -/
lemma processOffers_forall2 {w : World} {rates rs : List (String × ℚ)}
    {rcalls cs : List String} {offers : List RawOffer} {ns : List NormalizedOffer}
    (h : processOffers w rates rcalls offers = (rs, cs, some ns))
    (hOK : RatesOK w rates) :
    List.Forall₂ (fun o n => ∃ seg r, firstSegment o = some seg ∧
      _get_rate w o.price.currency = some r ∧ n = normalizeOffer o seg r) offers ns := by
  induction offers generalizing rates rcalls rs cs ns with
  | nil =>
    simp [processOffers] at h
    obtain ⟨-, -, h3⟩ := h
    rw [h3]
    exact List.Forall₂.nil
  | cons o rest ih =>
    rw [processOffers] at h
    rcases hr : resolveRate w rates rcalls o.price.currency with ⟨rates1, rcalls1, ro⟩
    rw [hr] at h
    rcases ro with _ | r
    · simp at h
    · simp only [] at h
      rcases hs : firstSegment o with _ | seg
      · rw [hs] at h
        simp at h
      · rw [hs] at h
        rcases hp : processOffers w rates1 rcalls1 rest with ⟨rs2, cs2, res2⟩
        rw [hp] at h
        rcases res2 with _ | ns2
        · simp at h
        · simp at h
          obtain ⟨h1, h2, h3⟩ := h
          obtain ⟨hg, hOK1⟩ := resolveRate_some_oracle hOK hr
          have hrec := ih hp hOK1
          rw [← h3]
          exact List.Forall₂.cons ⟨seg, r, hs, hg, rfl⟩ hrec

/-- Decomposition of a successful `runT` invocation into its pipeline
stages. -/
lemma runT_some {w : World} {origin destination departure_date return_date : String}
    {tr : TripResult}
    (h : (runT w origin destination departure_date return_date).1 = some tr) :
    ∃ token d1 d2 outb retn rates1 rcalls1 rs2 rcalls2 ns1 ns2,
      _amadeus_token w = some token ∧
      _to_iso departure_date = some d1 ∧
      _to_iso return_date = some d2 ∧
      _search_leg w token origin destination d1 = some outb ∧
      _search_leg w token destination origin d2 = some retn ∧
      processOffers w [] [] outb = (rates1, rcalls1, some ns1) ∧
      processOffers w rates1 rcalls1 retn = (rs2, rcalls2, some ns2) ∧
      tr = ⟨sortLeg ns1, sortLeg ns2⟩ ∧
      (runT w origin destination departure_date return_date).2.1 =
        [(origin, destination, d1), (destination, origin, d2)] ∧
      (runT w origin destination departure_date return_date).2.2 = rcalls2 := by
  rcases htok : _amadeus_token w with _ | token
  · simp [runT, htok] at h
  rcases hd1 : _to_iso departure_date with _ | d1
  · simp [runT, htok, hd1] at h
  rcases hs1 : _search_leg w token origin destination d1 with _ | outb
  · simp [runT, htok, hd1, hs1] at h
  rcases hd2 : _to_iso return_date with _ | d2
  · simp [runT, htok, hd1, hs1, hd2] at h
  rcases hs2 : _search_leg w token destination origin d2 with _ | retn
  · simp [runT, htok, hd1, hs1, hd2, hs2] at h
  rcases hp1 : processOffers w [] [] outb with ⟨rates1, rcalls1, res1⟩
  rcases res1 with _ | ns1
  · simp [runT, htok, hd1, hs1, hd2, hs2, hp1] at h
  rcases hp2 : processOffers w rates1 rcalls1 retn with ⟨rs2, rcalls2, res2⟩
  rcases res2 with _ | ns2
  · simp [runT, htok, hd1, hs1, hd2, hs2, hp1, hp2] at h
  refine ⟨token, d1, d2, outb, retn, rates1, rcalls1, rs2, rcalls2, ns1, ns2,
    rfl, rfl, rfl, hs1, hs2, hp1, hp2, ?_, ?_, ?_⟩
  · simp [runT, htok, hd1, hs1, hd2, hs2, hp1, hp2] at h
    exact h.symm
  · simp [runT, htok, hd1, hs1, hd2, hs2, hp1, hp2]
  · simp [runT, htok, hd1, hs1, hd2, hs2, hp1, hp2]

/-! ### Helper lemmas: the stable sort at line 99 -/

lemma priceLE_trans (a b c : NormalizedOffer) :
    priceLE a b = true → priceLE b c = true → priceLE a c = true := by
  simp only [priceLE, decide_eq_true_eq]
  exact le_trans

lemma priceLE_total (a b : NormalizedOffer) :
    (priceLE a b || priceLE b a) = true := by
  simp only [priceLE, Bool.or_eq_true, decide_eq_true_eq]
  exact le_total _ _

lemma sortLeg_perm (ns : List NormalizedOffer) : (sortLeg ns).Perm ns :=
  List.mergeSort_perm ns priceLE

lemma sortLeg_length (ns : List NormalizedOffer) :
    (sortLeg ns).length = ns.length :=
  (sortLeg_perm ns).length_eq

lemma sortLeg_sorted (ns : List NormalizedOffer) :
    (sortLeg ns).Pairwise (fun a b => a.price_brl ≤ b.price_brl) := by
  have h := List.sorted_mergeSort priceLE_trans priceLE_total ns
  exact h.imp fun hab => by simpa [priceLE] using hab

/-- Stability of the line-99 sort, characterized through filters: for every
price, the sorted list restricted to that price is exactly the input list
restricted to that price, in the same order. -/
lemma sortLeg_stable_filter (ns : List NormalizedOffer) (p : ℚ) :
    (sortLeg ns).filter (fun v => decide (v.price_brl = p)) =
      ns.filter (fun v => decide (v.price_brl = p)) := by
  have hpair : (ns.filter (fun v => decide (v.price_brl = p))).Pairwise
      (fun a b => priceLE a b = true) := by
    apply List.pairwise_of_forall_mem_list
    intro a ha b hb
    have ha' := List.of_mem_filter ha
    have hb' := List.of_mem_filter hb
    simp only [decide_eq_true_eq] at ha' hb'
    simp [priceLE, ha', hb']
  have hsub : (ns.filter (fun v => decide (v.price_brl = p))).Sublist (sortLeg ns) :=
    List.sublist_mergeSort priceLE_trans priceLE_total hpair (List.filter_sublist ns)
  have hself : ((ns.filter (fun v => decide (v.price_brl = p))).filter
      (fun v => decide (v.price_brl = p))) = ns.filter (fun v => decide (v.price_brl = p)) := by
    apply List.filter_eq_self.mpr
    intro a ha
    have h2 := List.of_mem_filter ha
    simpa using h2
  have hsub2 := List.Sublist.filter (fun v => decide (v.price_brl = p)) hsub
  rw [hself] at hsub2
  have hlen : ((sortLeg ns).filter (fun v => decide (v.price_brl = p))).length =
      (ns.filter (fun v => decide (v.price_brl = p))).length :=
    ((sortLeg_perm ns).filter _).length_eq
  exact (hsub2.eq_of_length hlen.symm).symm

/-! ### Helper lemmas: concrete evaluations -/

lemma mergeSort_pair {α : Type} (le : α → α → Bool) (a b : α) :
    List.mergeSort [a, b] le = if le a b then [a, b] else [b, a] := by
  rw [List.mergeSort]
  by_cases h : le a b <;> simp [List.merge, h]

lemma pLE1 : priceLE nLATAM1000 nXX825 = false := by
  simp only [priceLE, nLATAM1000, nXX825, decide_eq_false_iff_not]
  norm_num

lemma pLE2 : priceLE nXX825 nAzul900 = true := by
  simp only [priceLE, nXX825, nAzul900, decide_eq_true_eq]
  norm_num

lemma pLE3 : priceLE nAzul900 nLATAM1000 = true := by
  simp only [priceLE, nAzul900, nLATAM1000, decide_eq_true_eq]
  norm_num

lemma pLE4 : priceLE nXX825 nLATAM1000 = true := by
  simp only [priceLE, nXX825, nLATAM1000, decide_eq_true_eq]
  norm_num

lemma pLE5 : priceLE nLATAM1000 nAzul900 = false := by
  simp only [priceLE, nLATAM1000, nAzul900, decide_eq_false_iff_not]
  norm_num

lemma sortLeg_nil : sortLeg [] = [] := by
  simp [sortLeg]

lemma sortLeg_scenario :
    sortLeg [nLATAM1000, nXX825, nAzul900] = [nXX825, nAzul900, nLATAM1000] := by
  rw [sortLeg, List.mergeSort]
  simp only [List.splitInTwo_fst, List.splitInTwo_snd]
  norm_num [mergeSort_pair, pLE1, List.mergeSort_singleton, List.merge,
    pLE2, pLE3, pLE4, pLE5]

/-- The normalization loop on the scenario offers: the USD rate is fetched
once, the EUR rate once, and the normalized prices come out as 1000, 825
and 900 BRL, in provider order. -/
lemma processOffers_wC2 :
    processOffers wC2 [] [] [offerUSD200, offerEUR150, offerUSD180] =
      ([("EUR", 11 / 2), ("USD", 5)], ["USD", "EUR"],
       some [nLATAM1000, nXX825, nAzul900]) := by
  have hUSD : _get_rate wC2 "USD" = some 5 := rfl
  have hEUR : _get_rate wC2 "EUR" = some (11 / 2) := rfl
  have r1 : round2 ((200 : ℚ) * 5) = 1000 := by norm_num [round2, roundHalfToEven]
  have r2 : round2 ((150 : ℚ) * (11 / 2)) = 825 := by norm_num [round2, roundHalfToEven]
  have r3 : round2 ((180 : ℚ) * 5) = 900 := by norm_num [round2, roundHalfToEven]
  simp [processOffers, resolveRate, lookupRate, firstSegment, normalizeOffer,
    offerUSD200, offerEUR150, offerUSD180, hUSD, hEUR, companiesGet, companies,
    nLATAM1000, nXX825, nAzul900, r1, r2, r3]
  decide

/-- Full evaluation of `_run` on the end-to-end scenario. -/
lemma runT_wC2 :
    runT wC2 "GRU" "GIG" "05/11/2025" "12/11/2025" =
      (some ⟨[nXX825, nAzul900, nLATAM1000], []⟩,
       [("GRU", "GIG", "2025-11-05"), ("GIG", "GRU", "2025-11-12")],
       ["USD", "EUR"]) := by
  have htok : _amadeus_token wC2 = some "tok" := rfl
  have hd1 : _to_iso "05/11/2025" = some "2025-11-05" := by decide
  have hd2 : _to_iso "12/11/2025" = some "2025-11-12" := by decide
  have hs1 : _search_leg wC2 "tok" "GRU" "GIG" "2025-11-05" =
      some [offerUSD200, offerEUR150, offerUSD180] := by
    simp [_search_leg, wC2]
  have hs2 : _search_leg wC2 "tok" "GIG" "GRU" "2025-11-12" = some [] := by
    simp [_search_leg, wC2]
  have hp2 : processOffers wC2 [("EUR", 11 / 2), ("USD", 5)] ["USD", "EUR"] [] =
      ([("EUR", 11 / 2), ("USD", 5)], ["USD", "EUR"], some []) := by
    simp [processOffers]
  simp only [runT, htok, hd1, hs1, hd2, hs2, processOffers_wC2, hp2,
    sortLeg_scenario, sortLeg_nil]

/-- With an unreachable token endpoint the invocation aborts immediately:
no fetch, no rate call, no result. -/
lemma runT_wAuthFail (o d dd rd : String) :
    runT wAuthFail o d dd rd = (none, [], []) := rfl

/-- Full evaluation of `_run` on the negative-price world: the produced
offer carries price −500 BRL. -/
lemma runT_wNeg :
    runT wNeg "GRU" "GIG" "05/11/2025" "12/11/2025" =
      (some ⟨[nNeg500], []⟩,
       [("GRU", "GIG", "2025-11-05"), ("GIG", "GRU", "2025-11-12")],
       ["USD"]) := by
  have htok : _amadeus_token wNeg = some "tok" := rfl
  have hd1 : _to_iso "05/11/2025" = some "2025-11-05" := by decide
  have hd2 : _to_iso "12/11/2025" = some "2025-11-12" := by decide
  have hs1 : _search_leg wNeg "tok" "GRU" "GIG" "2025-11-05" = some [offerNegUSD] := by
    simp [_search_leg, wNeg]
  have hs2 : _search_leg wNeg "tok" "GIG" "GRU" "2025-11-12" = some [] := by
    simp [_search_leg, wNeg]
  have hUSD : _get_rate wNeg "USD" = some 5 := rfl
  have rneg : round2 (-((100 : ℚ) * 5)) = -500 := by norm_num [round2, roundHalfToEven]
  have hp1 : processOffers wNeg [] [] [offerNegUSD] =
      ([("USD", 5)], ["USD"], some [nNeg500]) := by
    simp [processOffers, resolveRate, lookupRate, firstSegment, normalizeOffer,
      offerNegUSD, hUSD, companiesGet, companies, nNeg500, rneg]
  have hp2 : processOffers wNeg [("USD", 5)] ["USD"] [] =
      ([("USD", 5)], ["USD"], some []) := by
    simp [processOffers]
  have hsingle : sortLeg [nNeg500] = [nNeg500] := by
    simp [sortLeg]
  simp only [runT, htok, hd1, hs1, hd2, hs2, hp1, hp2, hsingle, sortLeg_nil]

lemma processOffers_replicate (n : Nat) :
    processOffers wBig [("USD", 5)] ["USD"] (List.replicate n offerUSD200) =
      ([("USD", 5)], ["USD"], some (List.replicate n nLATAM1000)) := by
  induction n with
  | zero => simp [processOffers]
  | succ k ih =>
    have r1 : round2 ((200 : ℚ) * 5) = 1000 := by norm_num [round2, roundHalfToEven]
    have hlook : lookupRate [("USD", 5)] offerUSD200.price.currency = some 5 := by
      simp [offerUSD200, lookupRate]
    have hseg : firstSegment offerUSD200 =
        some ⟨"LA", "2025-11-05T08:00", "2025-11-05T09:45", 0⟩ := rfl
    have hnorm : normalizeOffer offerUSD200
        ⟨"LA", "2025-11-05T08:00", "2025-11-05T09:45", 0⟩ 5 = nLATAM1000 := by
      simp [normalizeOffer, offerUSD200, nLATAM1000, companiesGet, companies, r1]
    simp [List.replicate_succ, processOffers, resolveRate, hlook, hseg, hnorm, ih]

lemma processOffers_wBig :
    processOffers wBig [] [] (List.replicate 21 offerUSD200) =
      ([("USD", 5)], ["USD"], some (List.replicate 21 nLATAM1000)) := by
  have r1 : round2 ((200 : ℚ) * 5) = 1000 := by norm_num [round2, roundHalfToEven]
  have hnorm : normalizeOffer offerUSD200
      ⟨"LA", "2025-11-05T08:00", "2025-11-05T09:45", 0⟩ 5 = nLATAM1000 := by
    simp [normalizeOffer, offerUSD200, nLATAM1000, companiesGet, companies, r1]
  have hseg : firstSegment offerUSD200 =
      some ⟨"LA", "2025-11-05T08:00", "2025-11-05T09:45", 0⟩ := rfl
  have h21 : List.replicate 21 offerUSD200 =
      offerUSD200 :: List.replicate 20 offerUSD200 := rfl
  have h21n : List.replicate 21 nLATAM1000 =
      nLATAM1000 :: List.replicate 20 nLATAM1000 := rfl
  have hres : resolveRate wBig [] [] offerUSD200.price.currency =
      ([("USD", 5)], ["USD"], some 5) := rfl
  rw [h21, h21n, processOffers]
  simp only [hres, hseg, processOffers_replicate 20, hnorm]

lemma sortLeg_replicate (n : Nat) :
    sortLeg (List.replicate n nLATAM1000) = List.replicate n nLATAM1000 := by
  apply List.mergeSort_of_sorted
  apply List.pairwise_of_forall_mem_list
  intro a ha b hb
  rw [List.eq_of_mem_replicate ha, List.eq_of_mem_replicate hb]
  simp [priceLE]

/-- Full evaluation of `_run` when the provider delivers 21 offers: all 21
survive normalization and ranking. -/
lemma runT_wBig :
    runT wBig "GRU" "GIG" "05/11/2025" "12/11/2025" =
      (some ⟨List.replicate 21 nLATAM1000, []⟩,
       [("GRU", "GIG", "2025-11-05"), ("GIG", "GRU", "2025-11-12")],
       ["USD"]) := by
  have htok : _amadeus_token wBig = some "tok" := rfl
  have hd1 : _to_iso "05/11/2025" = some "2025-11-05" := by decide
  have hd2 : _to_iso "12/11/2025" = some "2025-11-12" := by decide
  have hs1 : _search_leg wBig "tok" "GRU" "GIG" "2025-11-05" =
      some (List.replicate 21 offerUSD200) := by
    simp [_search_leg, wBig]
  have hs2 : _search_leg wBig "tok" "GIG" "GRU" "2025-11-12" = some [] := by
    simp [_search_leg, wBig]
  have hp2 : processOffers wBig [("USD", 5)] ["USD"] [] =
      ([("USD", 5)], ["USD"], some []) := by
    simp [processOffers]
  simp only [runT, htok, hd1, hs1, hd2, hs2, processOffers_wBig, hp2,
    sortLeg_replicate 21, sortLeg_nil]

/-- One normalized offer per raw offer: the loop never truncates or
filters. -/
lemma processOffers_length {w : World} {rates rs : List (String × ℚ)}
    {rcalls cs : List String} {offers : List RawOffer} {ns : List NormalizedOffer}
    (h : processOffers w rates rcalls offers = (rs, cs, some ns)) :
    ns.length = offers.length := by
  induction offers generalizing rates rcalls rs cs ns with
  | nil =>
    simp [processOffers] at h
    simp [h.2.2]
  | cons o rest ih =>
    rw [processOffers] at h
    rcases hr : resolveRate w rates rcalls o.price.currency with ⟨rates1, rcalls1, ro⟩
    rw [hr] at h
    rcases ro with _ | r
    · simp at h
    · simp only [] at h
      rcases hs : firstSegment o with _ | seg
      · rw [hs] at h
        simp at h
      · rw [hs] at h
        rcases hp : processOffers w rates1 rcalls1 rest with ⟨rs2, cs2, res2⟩
        rw [hp] at h
        rcases res2 with _ | ns2
        · simp at h
        · simp at h
          rw [← h.2.2]
          simp [ih hp]

/-! ### Claims -/

/-- C1: For every sequence of raw offers for a leg, the leg's result list
produced by `FlightSearchTool._run` is sorted non-decreasing by
`price_brl`, and the sort is stable: two normalized offers with equal
`price_brl` appear in the same relative order as their raw offers did in
the provider's list (the pre-sort list `ns1`/`ns2` holds one normalized
offer per raw offer in provider order, and for every price the sorted
list filtered to that price equals the pre-sort list filtered to it). -/
theorem claim_C1_leg_results_sorted_stable
    (w : World) (origin destination departure_date return_date : String)
    (tr : TripResult)
    (h : (runT w origin destination departure_date return_date).1 = some tr) :
    tr.outbound.Pairwise (fun a b => a.price_brl ≤ b.price_brl) ∧
    tr.ret.Pairwise (fun a b => a.price_brl ≤ b.price_brl) ∧
    ∃ token d1 d2 outb retn rates1 rcalls1 rs2 rcalls2 ns1 ns2,
      _amadeus_token w = some token ∧
      _to_iso departure_date = some d1 ∧
      _to_iso return_date = some d2 ∧
      _search_leg w token origin destination d1 = some outb ∧
      _search_leg w token destination origin d2 = some retn ∧
      processOffers w [] [] outb = (rates1, rcalls1, some ns1) ∧
      processOffers w rates1 rcalls1 retn = (rs2, rcalls2, some ns2) ∧
      tr.outbound = sortLeg ns1 ∧ tr.ret = sortLeg ns2 ∧
      (∀ p : ℚ, tr.outbound.filter (fun v => decide (v.price_brl = p)) =
        ns1.filter (fun v => decide (v.price_brl = p))) ∧
      (∀ p : ℚ, tr.ret.filter (fun v => decide (v.price_brl = p)) =
        ns2.filter (fun v => decide (v.price_brl = p))) := by
  obtain ⟨token, d1, d2, outb, retn, rates1, rcalls1, rs2, rcalls2, ns1, ns2,
    htok, hd1, hd2, hs1, hs2, hp1, hp2, htr, -, -⟩ := runT_some h
  subst htr
  refine ⟨sortLeg_sorted ns1, sortLeg_sorted ns2,
    token, d1, d2, outb, retn, rates1, rcalls1, rs2, rcalls2, ns1, ns2,
    htok, hd1, hd2, hs1, hs2, hp1, hp2, rfl, rfl, ?_, ?_⟩
  · intro p
    exact sortLeg_stable_filter ns1 p
  · intro p
    exact sortLeg_stable_filter ns2 p

/-- Witness for C1 at the end-to-end scenario world. -/
theorem claim_C1_witness :
    (⟨[nXX825, nAzul900, nLATAM1000], []⟩ : TripResult).outbound.Pairwise
      (fun a b => a.price_brl ≤ b.price_brl) :=
  (claim_C1_leg_results_sorted_stable wC2 "GRU" "GIG" "05/11/2025" "12/11/2025"
    ⟨[nXX825, nAzul900, nLATAM1000], []⟩ (by rw [runT_wC2])).1

/-- C2: with three outbound offers priced 200 USD, 150 EUR, 180 USD (in
that provider order) and rates USD→BRL = 5, EUR→BRL = 5.5, the normalized
prices are 1000, 825, 900 in provider order, and the leg's result list is
ordered [825, 900, 1000]. -/
theorem claim_C2_end_to_end_scenario :
    offerUSD200.price = ⟨"USD", 200⟩ ∧ offerEUR150.price = ⟨"EUR", 150⟩ ∧
    offerUSD180.price = ⟨"USD", 180⟩ ∧
    _get_rate wC2 "USD" = some 5 ∧ _get_rate wC2 "EUR" = some (11 / 2) ∧
    ∃ tr, (runT wC2 "GRU" "GIG" "05/11/2025" "12/11/2025").1 = some tr ∧
      (processOffers wC2 [] [] [offerUSD200, offerEUR150, offerUSD180]).2.2 =
        some [nLATAM1000, nXX825, nAzul900] ∧
      [nLATAM1000.price_brl, nXX825.price_brl, nAzul900.price_brl] =
        [1000, 825, 900] ∧
      tr.outbound.map (fun n => n.price_brl) = [825, 900, 1000] := by
  refine ⟨rfl, rfl, rfl, rfl, rfl,
    ⟨[nXX825, nAzul900, nLATAM1000], []⟩, by rw [runT_wC2], ?_, ?_, ?_⟩
  · rw [processOffers_wC2]
  · simp [nLATAM1000, nXX825, nAzul900]
  · simp [nLATAM1000, nXX825, nAzul900]

/-- C6: if the authentication call fails, no leg fetch is performed and no
result object is produced: the invocation aborts with an empty fetch log,
an empty rate-call log and no `TripResult`. -/
theorem claim_C6_auth_failure_aborts
    (w : World) (origin destination departure_date return_date : String)
    (h : _amadeus_token w = none) :
    runT w origin destination departure_date return_date = (none, [], []) := by
  simp [runT, h]

/-- Witness for C6 at the unreachable-token world. -/
theorem claim_C6_witness :
    runT wAuthFail "GRU" "GIG" "05/11/2025" "12/11/2025" = (none, [], []) :=
  claim_C6_auth_failure_aborts wAuthFail "GRU" "GIG" "05/11/2025" "12/11/2025" rfl

/-- C8: the leg result lists of a successful invocation have exactly the
length of the provider's lists: one normalized offer per raw offer, no
truncation or filtering, whatever the list length (in particular > 20). -/
theorem claim_C8_no_truncation
    (w : World) (origin destination departure_date return_date : String)
    (token d1 d2 : String) (outb retn : List RawOffer) (tr : TripResult)
    (htok : _amadeus_token w = some token)
    (hd1 : _to_iso departure_date = some d1)
    (hd2 : _to_iso return_date = some d2)
    (hs1 : _search_leg w token origin destination d1 = some outb)
    (hs2 : _search_leg w token destination origin d2 = some retn)
    (h : (runT w origin destination departure_date return_date).1 = some tr) :
    tr.outbound.length = outb.length ∧ tr.ret.length = retn.length := by
  obtain ⟨token', d1', d2', outb', retn', rates1, rcalls1, rs2, rcalls2, ns1, ns2,
    htok', hd1', hd2', hs1', hs2', hp1, hp2, htr, -, -⟩ := runT_some h
  rw [htok] at htok'
  injection htok' with he1
  subst he1
  rw [hd1] at hd1'
  injection hd1' with he2
  subst he2
  rw [hd2] at hd2'
  injection hd2' with he3
  subst he3
  rw [hs1] at hs1'
  injection hs1' with he4
  subst he4
  rw [hs2] at hs2'
  injection hs2' with he5
  subst he5
  subst htr
  constructor
  · show (sortLeg ns1).length = outb.length
    rw [sortLeg_length]
    exact processOffers_length hp1
  · show (sortLeg ns2).length = retn.length
    rw [sortLeg_length]
    exact processOffers_length hp2

/-- Witness for C8 with a 21-offer provider list: all 21 entries survive. -/
theorem claim_C8_witness :
    (List.replicate 21 nLATAM1000).length = (List.replicate 21 offerUSD200).length ∧
    ([] : List NormalizedOffer).length = ([] : List RawOffer).length ∧
    20 < (List.replicate 21 offerUSD200).length := by
  have h := claim_C8_no_truncation wBig "GRU" "GIG" "05/11/2025" "12/11/2025"
    "tok" "2025-11-05" "2025-11-12" (List.replicate 21 offerUSD200) []
    ⟨List.replicate 21 nLATAM1000, []⟩ rfl (by decide) (by decide)
    (by simp [_search_leg, wBig]) (by simp [_search_leg, wBig]) (by rw [runT_wBig])
  exact ⟨h.1, h.2, by simp⟩

/-- The `_get_rate` call log of any invocation has no duplicate currency,
and (when the fetched legs are known) only holds currencies appearing in
the fetched offers. -/
lemma runT_rcalls_spec (w : World) (origin destination dd rd : String) :
    ((runT w origin destination dd rd).2.2).Nodup ∧
    (∀ token d1 d2 outb retn,
      _amadeus_token w = some token →
      _to_iso dd = some d1 → _to_iso rd = some d2 →
      _search_leg w token origin destination d1 = some outb →
      _search_leg w token destination origin d2 = some retn →
      ∀ c ∈ (runT w origin destination dd rd).2.2,
        c ∈ (outb ++ retn).map (fun o => o.price.currency)) := by
  rcases htok : _amadeus_token w with _ | token
  · refine ⟨by simp [runT, htok], ?_⟩
    intro token' d1 d2 outb retn htok'
    exact absurd htok' (by simp)
  rcases hd1 : _to_iso dd with _ | d1
  · refine ⟨by simp [runT, htok, hd1], ?_⟩
    intro token' d1' d2 outb retn htok' hd1'
    exact absurd hd1' (by simp)
  rcases hs1 : _search_leg w token origin destination d1 with _ | outb
  · refine ⟨by simp [runT, htok, hd1, hs1], ?_⟩
    intro token' d1' d2 outb' retn htok' hd1' hd2' hs1'
    injection htok' with he1
    subst he1
    injection hd1' with he2
    subst he2
    rw [hs1] at hs1'
    exact absurd hs1' (by simp)
  rcases hd2 : _to_iso rd with _ | d2
  · refine ⟨by simp [runT, htok, hd1, hs1, hd2], ?_⟩
    intro token' d1' d2' outb' retn htok' hd1' hd2'
    exact absurd hd2' (by simp)
  rcases hs2 : _search_leg w token destination origin d2 with _ | retn
  · refine ⟨by simp [runT, htok, hd1, hs1, hd2, hs2], ?_⟩
    intro token' d1' d2' outb' retn' htok' hd1' hd2' hs1' hs2'
    injection htok' with he1
    subst he1
    injection hd2' with he3
    subst he3
    rw [hs2] at hs2'
    exact absurd hs2' (by simp)
  rcases hp1 : processOffers w [] [] outb with ⟨rates1, rcalls1, res1⟩
  have inv1 := processOffers_invariants hp1 (RatesOK_nil w) (by simp)
    List.nodup_nil (by simp)
  rcases res1 with _ | ns1
  · have htrace : (runT w origin destination dd rd).2.2 = rcalls1 := by
      simp [runT, htok, hd1, hs1, hd2, hs2, hp1]
    refine ⟨by rw [htrace]; exact inv1.2.1, ?_⟩
    intro token' d1' d2' outb' retn' htok' hd1' hd2' hs1' hs2' c hc
    injection htok' with he1
    subst he1
    injection hd1' with he2
    subst he2
    rw [hs1] at hs1'
    injection hs1' with he4
    subst he4
    rw [htrace] at hc
    rcases inv1.2.2.2.1 c hc with h0 | h1
    · exact absurd h0 (by simp)
    · rw [List.map_append]
      exact List.mem_append.mpr (Or.inl h1)
  · rcases hp2 : processOffers w rates1 rcalls1 retn with ⟨rs2, rcalls2, res2⟩
    have hcall1 : ∀ c ∈ rcalls1, ∃ r, lookupRate rates1 c = some r :=
      inv1.2.2.2.2.2 ns1 rfl
    have inv2 := processOffers_invariants hp2 inv1.1 hcall1 inv1.2.1 inv1.2.2.1
    have htrace : (runT w origin destination dd rd).2.2 = rcalls2 := by
      rcases res2 with _ | ns2 <;> simp [runT, htok, hd1, hs1, hd2, hs2, hp1, hp2]
    refine ⟨by rw [htrace]; exact inv2.2.1, ?_⟩
    intro token' d1' d2' outb' retn' htok' hd1' hd2' hs1' hs2' c hc
    injection htok' with he1
    subst he1
    injection hd1' with he2
    subst he2
    injection hd2' with he3
    subst he3
    rw [hs1] at hs1'
    injection hs1' with he4
    subst he4
    rw [hs2] at hs2'
    injection hs2' with he5
    subst he5
    rw [htrace] at hc
    rcases inv2.2.2.2.1 c hc with h0 | h1
    · rcases inv1.2.2.2.1 c h0 with h00 | h01
      · exact absurd h00 (by simp)
      · rw [List.map_append]
        exact List.mem_append.mpr (Or.inl h01)
    · rw [List.map_append]
      exact List.mem_append.mpr (Or.inr h1)

/-- C3: within one invocation of `_run`, `_get_rate` is called at most once
per distinct currency (the call log has no duplicates and only holds
currencies of the fetched offers), a stored rate is never overwritten (the
table keys stay duplicate-free, existing bindings are only extended, and
every binding equals the service's value), and every offer of either leg is
converted with that same single rate for its currency. -/
theorem claim_C3_rate_memoization
    (w : World) (origin destination departure_date return_date : String) :
    ((runT w origin destination departure_date return_date).2.2).Nodup ∧
    (∀ token d1 d2 outb retn,
      _amadeus_token w = some token →
      _to_iso departure_date = some d1 → _to_iso return_date = some d2 →
      _search_leg w token origin destination d1 = some outb →
      _search_leg w token destination origin d2 = some retn →
      ∀ c ∈ (runT w origin destination departure_date return_date).2.2,
        c ∈ (outb ++ retn).map (fun o => o.price.currency)) ∧
    (∀ rates rcalls offers rs cs res,
      processOffers w rates rcalls offers = (rs, cs, res) →
      RatesOK w rates →
      (∀ c ∈ rcalls, ∃ r, lookupRate rates c = some r) →
      rcalls.Nodup →
      (rates.map Prod.fst).Nodup →
      ((rs.map Prod.fst).Nodup ∧ RatesOK w rs ∧ ∃ ext, rs = ext ++ rates)) ∧
    (∀ rates rcalls offers rs cs ns,
      processOffers w rates rcalls offers = (rs, cs, some ns) →
      RatesOK w rates →
      List.Forall₂ (fun o n => ∃ seg r, firstSegment o = some seg ∧
        _get_rate w o.price.currency = some r ∧ n = normalizeOffer o seg r)
        offers ns) := by
  refine ⟨(runT_rcalls_spec w origin destination departure_date return_date).1,
    (runT_rcalls_spec w origin destination departure_date return_date).2, ?_, ?_⟩
  · intro rates rcalls offers rs cs res h hOK hcall hnd hkeys
    have inv := processOffers_invariants h hOK hcall hnd hkeys
    exact ⟨inv.2.2.1, inv.1, inv.2.2.2.2.1⟩
  · intro rates rcalls offers rs cs ns h hOK
    exact processOffers_forall2 h hOK

/-- Witness for C3 at the end-to-end scenario world: the call log is
["USD", "EUR"] with no duplicates, the final table keys are duplicate-free,
and each normalized offer used the service's rate for its currency. -/
theorem claim_C3_witness :
    ((runT wC2 "GRU" "GIG" "05/11/2025" "12/11/2025").2.2).Nodup ∧
    (([("EUR", (11 : ℚ) / 2), ("USD", 5)].map Prod.fst).Nodup) ∧
    List.Forall₂ (fun o n => ∃ seg r, firstSegment o = some seg ∧
      _get_rate wC2 o.price.currency = some r ∧ n = normalizeOffer o seg r)
      [offerUSD200, offerEUR150, offerUSD180] [nLATAM1000, nXX825, nAzul900] := by
  have h := claim_C3_rate_memoization wC2 "GRU" "GIG" "05/11/2025" "12/11/2025"
  refine ⟨h.1, ?_, ?_⟩
  · exact (h.2.2.1 [] [] [offerUSD200, offerEUR150, offerUSD180] _ _ _
      processOffers_wC2 (RatesOK_nil wC2) (by simp) List.nodup_nil (by simp)).1
  · exact h.2.2.2 [] [] _ _ _ _ processOffers_wC2 (RatesOK_nil wC2)

/-- C4 counterexample: both date strings are well-formed `dd/MM/yyyy`
(both convert), yet the offer fetcher is called zero times, not twice —
the authentication call failed first.  "For every invocation … the offer
fetcher is called exactly twice" is therefore false as stated. -/
theorem claim_C4_counterexample :
    _to_iso "05/11/2025" = some "2025-11-05" ∧
    _to_iso "12/11/2025" = some "2025-11-12" ∧
    (runT wAuthFail "GRU" "GIG" "05/11/2025" "12/11/2025").2.1 = [] := by
  refine ⟨by decide, by decide, ?_⟩
  rw [runT_wAuthFail]

/-- C4 (amended): provided the authentication call succeeds — if both dates
convert and the outbound fetch returns, the fetcher is called exactly twice,
once with (origin, destination, ISO departure date) and once with
(destination, origin, ISO return date); if the departure date does not match
`dd/MM/yyyy`, the invocation aborts with no fetch call; if the departure
date converts but the return date does not, the invocation aborts after
only the outbound call. -/
theorem claim_C4_fetcher_calls
    (w : World) (origin destination departure_date return_date token : String)
    (htok : _amadeus_token w = some token) :
    (∀ d1 d2 outb,
      _to_iso departure_date = some d1 →
      _to_iso return_date = some d2 →
      _search_leg w token origin destination d1 = some outb →
      (runT w origin destination departure_date return_date).2.1 =
        [(origin, destination, d1), (destination, origin, d2)]) ∧
    (_to_iso departure_date = none →
      runT w origin destination departure_date return_date = (none, [], [])) ∧
    (∀ d1, _to_iso departure_date = some d1 → _to_iso return_date = none →
      (runT w origin destination departure_date return_date).1 = none ∧
      (runT w origin destination departure_date return_date).2.1 =
        [(origin, destination, d1)]) := by
  refine ⟨?_, ?_, ?_⟩
  · intro d1 d2 outb hd1 hd2 hs1
    rcases hs2 : _search_leg w token destination origin d2 with _ | retn
    · simp [runT, htok, hd1, hs1, hd2, hs2]
    · rcases hp1 : processOffers w [] [] outb with ⟨rates1, rcalls1, res1⟩
      rcases res1 with _ | ns1
      · simp [runT, htok, hd1, hs1, hd2, hs2, hp1]
      · rcases hp2 : processOffers w rates1 rcalls1 retn with ⟨rs2, rcalls2, res2⟩
        rcases res2 with _ | ns2 <;> simp [runT, htok, hd1, hs1, hd2, hs2, hp1, hp2]
  · intro hd1
    simp [runT, htok, hd1]
  · intro d1 hd1 hd2
    rcases hs1 : _search_leg w token origin destination d1 with _ | outb <;>
      simp [runT, htok, hd1, hs1, hd2]

/-- Witness for C4 at concrete worlds: at the scenario world both ISO
conversions succeed and the fetch log is exactly the two expected calls;
with a malformed departure date the same world aborts with no fetch. -/
theorem claim_C4_witness :
    (runT wC2 "GRU" "GIG" "05/11/2025" "12/11/2025").2.1 =
      [("GRU", "GIG", "2025-11-05"), ("GIG", "GRU", "2025-11-12")] ∧
    runT wC2 "GRU" "GIG" "99/99/9999" "12/11/2025" = (none, [], []) ∧
    (runT wC2 "GRU" "GIG" "05/11/2025" "2025-11-12").1 = none ∧
    (runT wC2 "GRU" "GIG" "05/11/2025" "2025-11-12").2.1 =
      [("GRU", "GIG", "2025-11-05")] := by
  have h1 := (claim_C4_fetcher_calls wC2 "GRU" "GIG" "05/11/2025" "12/11/2025"
    "tok" rfl).1 "2025-11-05" "2025-11-12" [offerUSD200, offerEUR150, offerUSD180]
    (by decide) (by decide) (by simp [_search_leg, wC2])
  have h2 := (claim_C4_fetcher_calls wC2 "GRU" "GIG" "99/99/9999" "12/11/2025"
    "tok" rfl).2.1 (by decide)
  have h3 := (claim_C4_fetcher_calls wC2 "GRU" "GIG" "05/11/2025" "2025-11-12"
    "tok" rfl).2.2 "2025-11-05" (by decide) (by decide)
  exact ⟨h1, h2, h3.1, h3.2⟩

/-- In any invocation the fetch endpoint is consulted at most twice — one
attempt per leg, never retried. -/
lemma runT_calls_le_two (w : World) (origin destination dd rd : String) :
    ((runT w origin destination dd rd).2.1).length ≤ 2 := by
  rcases htok : _amadeus_token w with _ | token
  · simp [runT, htok]
  rcases hd1 : _to_iso dd with _ | d1
  · simp [runT, htok, hd1]
  rcases hs1 : _search_leg w token origin destination d1 with _ | outb
  · simp [runT, htok, hd1, hs1]
  rcases hd2 : _to_iso rd with _ | d2
  · simp [runT, htok, hd1, hs1, hd2]
  rcases hs2 : _search_leg w token destination origin d2 with _ | retn
  · simp [runT, htok, hd1, hs1, hd2, hs2]
  rcases hp1 : processOffers w [] [] outb with ⟨rates1, rcalls1, res1⟩
  rcases res1 with _ | ns1
  · simp [runT, htok, hd1, hs1, hd2, hs2, hp1]
  rcases hp2 : processOffers w rates1 rcalls1 retn with ⟨rs2, rcalls2, res2⟩
  rcases res2 with _ | ns2 <;> simp [runT, htok, hd1, hs1, hd2, hs2, hp1, hp2]

/-- C5 counterexample: a response with the non-success status 500 whose
body still parses to a `data` list makes `_search_leg` succeed — the claim
"if the HTTP response has a non-success status … the call fails" is false
as stated, because the code never inspects the status code. -/
theorem claim_C5_counterexample :
    w500.searchResp "tok" "GRU" "GIG" "2025-11-05" =
      HttpResult.response 500 (some []) ∧
    (500 : Nat) ≠ 200 ∧
    _search_leg w500 "tok" "GRU" "GIG" "2025-11-05" = some [] :=
  ⟨rfl, by norm_num, rfl⟩

/-- C5 (amended): `_search_leg` fails when the transport fails or when the
response body yields no `data` list (the status code itself is never
inspected); a failed leg fetch aborts the whole invocation, which
propagates with the calls made so far and no result; and no retry is ever
attempted — at most two fetch calls happen in any invocation. -/
theorem claim_C5_fetch_failure_behavior
    (w : World) (token origin dest date : String) :
    (w.searchResp token origin dest date = HttpResult.transportError →
      _search_leg w token origin dest date = none) ∧
    (∀ s, w.searchResp token origin dest date = HttpResult.response s none →
      _search_leg w token origin dest date = none) ∧
    (∀ dd rd d1, _amadeus_token w = some token → _to_iso dd = some d1 →
      _search_leg w token origin dest d1 = none →
      runT w origin dest dd rd = (none, [(origin, dest, d1)], [])) ∧
    (∀ dd rd d1 d2 outb, _amadeus_token w = some token → _to_iso dd = some d1 →
      _search_leg w token origin dest d1 = some outb → _to_iso rd = some d2 →
      _search_leg w token dest origin d2 = none →
      runT w origin dest dd rd =
        (none, [(origin, dest, d1), (dest, origin, d2)], [])) ∧
    (∀ o d dd rd, ((runT w o d dd rd).2.1).length ≤ 2) := by
  refine ⟨?_, ?_, ?_, ?_, ?_⟩
  · intro h
    simp [_search_leg, h]
  · intro s h
    simp [_search_leg, h]
  · intro dd rd d1 htok hd1 hfail
    simp [runT, htok, hd1, hfail]
  · intro dd rd d1 d2 outb htok hd1 hs1 hd2 hfail
    simp [runT, htok, hd1, hs1, hd2, hfail]
  · intro o d dd rd
    exact runT_calls_le_two w o d dd rd

/-- Witness for C5: with an unreachable offer endpoint the leg fetch fails
and the invocation aborts after the single outbound call; the scenario
world makes at most two fetch calls. -/
theorem claim_C5_witness :
    _search_leg wSearchFail "tok" "GRU" "GIG" "2025-11-05" = none ∧
    runT wSearchFail "GRU" "GIG" "05/11/2025" "12/11/2025" =
      (none, [("GRU", "GIG", "2025-11-05")], []) ∧
    ((runT wC2 "GRU" "GIG" "05/11/2025" "12/11/2025").2.1).length ≤ 2 := by
  have h := claim_C5_fetch_failure_behavior wSearchFail "tok" "GRU" "GIG" "2025-11-05"
  refine ⟨h.1 rfl, ?_, ?_⟩
  · exact h.2.2.1 "05/11/2025" "12/11/2025" "2025-11-05" rfl (by decide) (h.1 rfl)
  · exact (claim_C5_fetch_failure_behavior wC2 "tok" "GRU" "GIG" "2025-11-05").2.2.2.2
      "GRU" "GIG" "05/11/2025" "12/11/2025"

lemma forall2_mem_right {α β : Type} {R : α → β → Prop} {l1 : List α}
    {l2 : List β} (h : List.Forall₂ R l1 l2) {b : β} (hb : b ∈ l2) :
    ∃ a ∈ l1, R a b := by
  induction h with
  | nil => simp at hb
  | cons hr ht ih =>
    rcases List.mem_cons.mp hb with h1 | h2
    · subst h1
      exact ⟨_, List.mem_cons_self _ _, hr⟩
    · rcases ih h2 with ⟨a, ha, hra⟩
      exact ⟨a, List.mem_cons_of_mem _ ha, hra⟩

/-- C7 counterexample: a provider may quote a negative total price, and the
code converts it unchecked — the produced leg result then holds an offer
with negative `price_brl`, so the invariant is false over every input the
provider may return. -/
theorem claim_C7_counterexample :
    ∃ tr, (runT wNeg "GRU" "GIG" "05/11/2025" "12/11/2025").1 = some tr ∧
      ∃ n ∈ tr.outbound, n.price_brl < 0 := by
  refine ⟨⟨[nNeg500], []⟩, by rw [runT_wNeg], nNeg500, by simp, ?_⟩
  norm_num [nNeg500]

/-- C7 (amended): provided every rate the rate service returns and every
`grandTotal` the provider delivers are non-negative, every normalized offer
of a successful invocation has a non-negative `price_brl`; and every
produced price is the BRL conversion `round2 (grandTotal * rate)` with the
rate the service quoted for the offer's currency (a single reference
currency). -/
theorem claim_C7_price_nonneg
    (w : World) (origin destination departure_date return_date : String)
    (tr : TripResult)
    (hrate : ∀ c r, _get_rate w c = some r → 0 ≤ r)
    (hprice : ∀ token o d date offers,
      _search_leg w token o d date = some offers →
      ∀ of ∈ offers, 0 ≤ of.price.grandTotal)
    (h : (runT w origin destination departure_date return_date).1 = some tr) :
    (∀ n ∈ tr.outbound ++ tr.ret, 0 ≤ n.price_brl) ∧
    (∀ n ∈ tr.outbound ++ tr.ret, ∃ o seg r,
      _get_rate w o.price.currency = some r ∧ n = normalizeOffer o seg r ∧
      n.price_brl = round2 (o.price.grandTotal * r)) := by
  obtain ⟨token, d1, d2, outb, retn, rates1, rcalls1, rs2, rcalls2, ns1, ns2,
    htok, hd1, hd2, hs1, hs2, hp1, hp2, htr, -, -⟩ := runT_some h
  subst htr
  have hOK1 : RatesOK w rates1 :=
    (processOffers_invariants hp1 (RatesOK_nil w) (by simp) List.nodup_nil
      (by simp)).1
  have hf1 := processOffers_forall2 hp1 (RatesOK_nil w)
  have hf2 := processOffers_forall2 hp2 hOK1
  have key : ∀ n, n ∈ sortLeg ns1 ∨ n ∈ sortLeg ns2 → ∃ o seg r offers,
      (offers = outb ∨ offers = retn) ∧ o ∈ offers ∧
      _get_rate w o.price.currency = some r ∧ n = normalizeOffer o seg r := by
    intro n hn
    rcases hn with hn | hn
    · have hn' : n ∈ ns1 := List.mem_mergeSort.mp hn
      rcases forall2_mem_right hf1 hn' with ⟨o, ho, seg, r, hseg, hg, heq⟩
      exact ⟨o, seg, r, outb, Or.inl rfl, ho, hg, heq⟩
    · have hn' : n ∈ ns2 := List.mem_mergeSort.mp hn
      rcases forall2_mem_right hf2 hn' with ⟨o, ho, seg, r, hseg, hg, heq⟩
      exact ⟨o, seg, r, retn, Or.inr rfl, ho, hg, heq⟩
  constructor
  · intro n hn
    have hn2 : n ∈ sortLeg ns1 ∨ n ∈ sortLeg ns2 := by
      simpa using List.mem_append.mp hn
    rcases key n hn2 with ⟨o, seg, r, offers, hoff, ho, hg, heq⟩
    have hr0 : 0 ≤ r := hrate _ _ hg
    have hg0 : 0 ≤ o.price.grandTotal := by
      rcases hoff with rfl | rfl
      · exact hprice token origin destination d1 _ hs1 o ho
      · exact hprice token destination origin d2 _ hs2 o ho
    rw [heq]
    show 0 ≤ round2 (o.price.grandTotal * r)
    exact round2_nonneg (mul_nonneg hg0 hr0)
  · intro n hn
    have hn2 : n ∈ sortLeg ns1 ∨ n ∈ sortLeg ns2 := by
      simpa using List.mem_append.mp hn
    rcases key n hn2 with ⟨o, seg, r, offers, hoff, ho, hg, heq⟩
    exact ⟨o, seg, r, hg, heq, by simp [heq, normalizeOffer]⟩

/-- Witness for C7 (amended) at the scenario world, whose rates and prices
are all non-negative. -/
theorem claim_C7_witness :
    0 ≤ nXX825.price_brl ∧ 0 ≤ nAzul900.price_brl ∧ 0 ≤ nLATAM1000.price_brl := by
  have hrate : ∀ c r, _get_rate wC2 c = some r → 0 ≤ r := by
    intro c r h
    by_cases h1 : c = "USD"
    · subst h1
      rw [show _get_rate wC2 "USD" = some 5 from rfl] at h
      injection h with h
      rw [← h]
      norm_num
    · by_cases h2 : c = "EUR"
      · subst h2
        rw [show _get_rate wC2 "EUR" = some (11 / 2) from rfl] at h
        injection h with h
        rw [← h]
        norm_num
      · have hnone : _get_rate wC2 c = none := by
          simp [_get_rate, wC2, h1, h2]
        rw [hnone] at h
        exact absurd h (by simp)
  have hprice : ∀ token o d date offers,
      _search_leg wC2 token o d date = some offers →
      ∀ of ∈ offers, 0 ≤ of.price.grandTotal := by
    intro token o d date offers h of hof
    by_cases h1 : o = "GRU"
    · subst h1
      rw [show _search_leg wC2 token "GRU" d date =
          some [offerUSD200, offerEUR150, offerUSD180] from by
        simp [_search_leg, wC2]] at h
      injection h with h
      rw [← h] at hof
      simp at hof
      rcases hof with rfl | rfl | rfl <;>
        norm_num [offerUSD200, offerEUR150, offerUSD180]
    · rw [show _search_leg wC2 token o d date = some [] from by
        simp [_search_leg, wC2, h1]] at h
      injection h with h
      rw [← h] at hof
      simp at hof
  have h := (claim_C7_price_nonneg wC2 "GRU" "GIG" "05/11/2025" "12/11/2025"
    ⟨[nXX825, nAzul900, nLATAM1000], []⟩ hrate hprice (by rw [runT_wC2])).1
  exact ⟨h nXX825 (by simp), h nAzul900 (by simp), h nLATAM1000 (by simp)⟩

/-- C9: the `company` field is the display name LATAM, GOL, Azul or Voepass
for carrier codes LA, G3, AD, 2Z, and is the raw carrier code itself for
every other code (`dict.get(code, code)` never fails); each normalized
offer's company comes from its first segment's carrier code. -/
theorem claim_C9_company_mapping :
    companiesGet "LA" = "LATAM" ∧ companiesGet "G3" = "GOL" ∧
    companiesGet "AD" = "Azul" ∧ companiesGet "2Z" = "Voepass" ∧
    (∀ code, code ∉ ["LA", "G3", "AD", "2Z"] → companiesGet code = code) ∧
    (∀ w rates rcalls offers rs cs ns,
      processOffers w rates rcalls offers = (rs, cs, some ns) →
      RatesOK w rates →
      List.Forall₂ (fun o n => ∀ seg, firstSegment o = some seg →
        n.company = companiesGet seg.carrierCode) offers ns) := by
  refine ⟨by decide, by decide, by decide, by decide, ?_, ?_⟩
  · intro code hc
    simp only [List.mem_cons, List.not_mem_nil, or_false, not_or] at hc
    obtain ⟨h1, h2, h3, h4⟩ := hc
    have b1 : (code == "LA") = false := beq_eq_false_iff_ne.mpr h1
    have b2 : (code == "G3") = false := beq_eq_false_iff_ne.mpr h2
    have b3 : (code == "AD") = false := beq_eq_false_iff_ne.mpr h3
    have b4 : (code == "2Z") = false := beq_eq_false_iff_ne.mpr h4
    simp [companiesGet, companies, List.lookup, b1, b2, b3, b4]
  · intro w rates rcalls offers rs cs ns h hOK
    refine List.Forall₂.imp ?_ (processOffers_forall2 h hOK)
    intro o n hR
    rcases hR with ⟨seg, r, hseg, hg, heq⟩
    intro seg' hseg'
    rw [hseg] at hseg'
    injection hseg' with he
    subst he
    simp [heq, normalizeOffer]

/-- Witness for C9: the known-carrier and unknown-carrier cases, and the
scenario run (LA→LATAM, XX→XX, AD→Azul). -/
theorem claim_C9_witness :
    companiesGet "LA" = "LATAM" ∧ companiesGet "XX" = "XX" ∧
    List.Forall₂ (fun o n => ∀ seg, firstSegment o = some seg →
      n.company = companiesGet seg.carrierCode)
      [offerUSD200, offerEUR150, offerUSD180] [nLATAM1000, nXX825, nAzul900] := by
  refine ⟨claim_C9_company_mapping.1, ?_, ?_⟩
  · exact claim_C9_company_mapping.2.2.2.2.1 "XX" (by decide)
  · exact claim_C9_company_mapping.2.2.2.2.2 wC2 [] []
      [offerUSD200, offerEUR150, offerUSD180] _ _ _
      processOffers_wC2 (RatesOK_nil wC2)

/-- C10: the `departure_time`, `arrival_time` and `stops` fields of every
normalized offer are read exclusively from the first segment of the offer's
first itinerary — in particular, for a multi-segment itinerary the arrival
time is the first segment's arrival and the stop count the first segment's
`numberOfStops`. -/
theorem claim_C10_first_segment_fields
    (w : World) (rates : List (String × ℚ)) (rcalls : List String)
    (offers : List RawOffer) (rs : List (String × ℚ)) (cs : List String)
    (ns : List NormalizedOffer)
    (h : processOffers w rates rcalls offers = (rs, cs, some ns))
    (hOK : RatesOK w rates) :
    List.Forall₂ (fun o n => ∃ seg, firstSegment o = some seg ∧
      n.departure_time = seg.departureAt ∧ n.arrival_time = seg.arrivalAt ∧
      n.stops = seg.numberOfStops) offers ns := by
  refine List.Forall₂.imp ?_ (processOffers_forall2 h hOK)
  intro o n hR
  rcases hR with ⟨seg, r, hseg, hg, heq⟩
  exact ⟨seg, hseg, by simp [heq, normalizeOffer], by simp [heq, normalizeOffer],
    by simp [heq, normalizeOffer]⟩

/-- Witness for C10 on the two-segment offer of the scenario: the produced
fields are the first segment's departure, arrival and stop count (not the
final destination's arrival, not the segment count). -/
theorem claim_C10_witness :
    ∃ seg, firstSegment offerUSD180 = some seg ∧
      nAzul900.departure_time = seg.departureAt ∧
      nAzul900.arrival_time = seg.arrivalAt ∧
      nAzul900.stops = seg.numberOfStops := by
  have h := claim_C10_first_segment_fields wC2 [] []
    [offerUSD200, offerEUR150, offerUSD180] _ _ _
    processOffers_wC2 (RatesOK_nil wC2)
  exact (List.forall₂_cons.mp ((List.forall₂_cons.mp
    ((List.forall₂_cons.mp h).2)).2)).1
